import Mathlib

/-!
Shallow embedding of `app/test-mldev/test_inference_common.c` (DPDK ML test
infrastructure) and proofs about its worker loops, pool setup, result
aggregation, launcher and option validation.

Machine integers are modelled as `Nat` with explicit reduction modulo
`2 ^ w` exactly where the C code truncates:
* `fid` is `uint16_t` (wraps modulo 65536 on `fid++`),
* `nb_filelist` in `ml_dequeue_single` is `uint8_t` (the value
  `end_fid - start_fid + 1` is truncated modulo 256),
* `fsize` in `ml_inference_iomem_setup` is `uint32_t` (the `ftell` result is
  truncated modulo 2^32),
* `uint64_t` accumulations (`error_count` sum, `nb_used`, the expected
  dequeue total) reduce modulo 2^64.

Spin-retry loops (`rte_mempool_get` retry, enqueue retry) are modelled as
eventually succeeding: the embedding records the sequence of successful
operations.  The dequeue side is driven by an explicit stream of burst
results (`none` = empty poll, `some o` = one completion), matching the
0-or-1 contract of `rte_ml_dequeue_burst` with burst size 1.
-/

/-- 2^64, the modulus of `uint64_t` arithmetic. -/
def U64 : Nat := 18446744073709551616

/-- 2^32, the modulus of `uint32_t` arithmetic. -/
def U32 : Nat := 4294967296

/-- Per-core assignment written by `ml_inference_launch_cores` into
`t->args[lcore_id]`: repetition count `nb_reqs` (`uint64_t`) and the model
range `start_fid`/`end_fid` (`uint16_t` values). -/
structure MlCoreArgs where
  nb_reqs : Nat
  start_fid : Nat
  end_fid : Nat
deriving DecidableEq

/-- Inner loop of `ml_enqueue_single` (labels `next_model` .. the
`fid <= args->end_fid` test).  Starting at `fid`, one operation is built and
submitted per model id; then `fid++` in `uint16_t` arithmetic and the loop
continues while `fid <= end_fid`.  Pool gets and the enqueue burst are
spin-retried in the source until they succeed, so the embedding records the
fid of each submitted operation.  `fuel` bounds the recursion; `none` means
the loop did not finish within `fuel` submissions. -/
def ml_enqueue_inner (a : MlCoreArgs) : Nat → Nat → Option (List Nat)
  | 0, _ => none
  | fuel + 1, fid =>
    let fid2 := (fid + 1) % 65536
    if fid2 ≤ a.end_fid then
      (ml_enqueue_inner a fuel fid2).map (fun l => fid :: l)
    else
      some [fid]

/-- Outer loop of `ml_enqueue_single` (label `next_rep`): `model_enq` counts
rounds from 0; after each round `model_enq++` and the loop repeats while
`model_enq < args->nb_reqs`, so exactly `nb_reqs` rounds run. -/
def ml_enqueue_reps (a : MlCoreArgs) (fuel : Nat) : Nat → Option (List Nat)
  | 0 => some []
  | n + 1 => do
    let l ← ml_enqueue_inner a fuel a.start_fid
    let rest ← ml_enqueue_reps a fuel n
    pure (l ++ rest)

/-- `ml_enqueue_single`: returns immediately when `args->nb_reqs == 0`,
otherwise runs `nb_reqs` rounds over the model range.  The result is the
list of fids of submitted operations, in submission order. -/
def ml_enqueue_single (a : MlCoreArgs) (fuel : Nat) : Option (List Nat) :=
  if a.nb_reqs = 0 then some []
  else ml_enqueue_reps a fuel a.nb_reqs

/-- One completed operation as observed by the dequeue worker: the fid
recovered through `op->user_ptr->fid` and whether `op->status` is
`RTE_ML_OP_STATUS_ERROR`. -/
structure MlOp where
  fid : Nat
  status_err : Bool
deriving DecidableEq

/-- Externally visible actions of one `ml_dequeue_single` run. -/
inductive DeqEvent where
  /-- a `rte_ml_dequeue_burst` call that returned 0 operations -/
  | pollEmpty : DeqEvent
  /-- a `rte_ml_dequeue_burst` call that returned one operation -/
  | complete (fid : Nat) (err : Bool) : DeqEvent
  /-- `t->error_count[lcore_id]++` -/
  | errorIncr : DeqEvent
  /-- `rte_mempool_put(t->model[req->fid].io_pool, req)` -/
  | putIoPool (fid : Nat) : DeqEvent
  /-- `rte_mempool_put(t->op_pool, op)` -/
  | putOpPool : DeqEvent
deriving DecidableEq

/-- The expected-completions bound tested by `ml_dequeue_single`:
`args->nb_reqs * nb_filelist` in `uint64_t`, where
`nb_filelist = (uint8_t)(args->end_fid - args->start_fid + 1)`.
The subtraction is done in `int` after integer promotion and then truncated
to `uint8_t`; since `start_fid ≤ 65535`, the value
`(end_fid + 65537 - start_fid) % 256` equals that truncation
(65536 ≡ 0 mod 256 makes the added bias vanish). -/
def ml_dequeue_expected (a : MlCoreArgs) : Nat :=
  (a.nb_reqs * ((a.end_fid + 65537 - a.start_fid) % 256)) % U64

/-- Loop of `ml_dequeue_single` (label `dequeue_req`).  Each step consumes
one burst result from `stream`; on a completion the status is inspected
(error counter incremented on `RTE_ML_OP_STATUS_ERROR`), the request buffer
is returned to `t->model[req->fid].io_pool` and the operation to
`t->op_pool`; the loop repeats while `total_deq < expected`.  Returns
`(total_deq, error_incr_count, trace)`; `none` means the stream was
exhausted while the worker was still polling. -/
def ml_dequeue_loop (expected : Nat) :
    List (Option MlOp) → Nat → Nat → Option (Nat × Nat × List DeqEvent)
  | [], _, _ => none
  | none :: rest, total, errs =>
    if total < expected then
      (ml_dequeue_loop expected rest total errs).map
        (fun r => (r.1, r.2.1, DeqEvent.pollEmpty :: r.2.2))
    else
      some (total, errs, [DeqEvent.pollEmpty])
  | some o :: rest, total, errs =>
    let evs := DeqEvent.complete o.fid o.status_err ::
      ((if o.status_err then [DeqEvent.errorIncr] else []) ++
        [DeqEvent.putIoPool o.fid, DeqEvent.putOpPool])
    let total2 := total + 1
    let errs2 := if o.status_err then errs + 1 else errs
    if total2 < expected then
      (ml_dequeue_loop expected rest total2 errs2).map
        (fun r => (r.1, r.2.1, evs ++ r.2.2))
    else
      some (total2, errs2, evs)

/-- `ml_dequeue_single`: returns immediately when `args->nb_reqs == 0`
(before any dequeue attempt), otherwise runs the dequeue loop with the
`uint64_t` expected total. -/
def ml_dequeue_single (a : MlCoreArgs) (stream : List (Option MlOp)) :
    Option (Nat × Nat × List DeqEvent) :=
  if a.nb_reqs = 0 then some (0, 0, [])
  else ml_dequeue_loop (ml_dequeue_expected a) stream 0 0

/-- Parses a dequeue trace, requiring every io-pool release to be
immediately followed by the op-pool release of the same completion; yields
the fids of the paired releases, or `none` if some release is unpaired. -/
def releasePairs : List DeqEvent → Option (List Nat)
  | [] => some []
  | DeqEvent.putIoPool f :: DeqEvent.putOpPool :: rest =>
    (releasePairs rest).map (fun l => f :: l)
  | DeqEvent.putIoPool _ :: _ => none
  | DeqEvent.putOpPool :: _ => none
  | _ :: rest => releasePairs rest

/-- The completions observed in a dequeue trace, as (fid, error?) pairs. -/
def completions : List DeqEvent → List (Nat × Bool)
  | [] => []
  | DeqEvent.complete f b :: rest => (f, b) :: completions rest
  | _ :: rest => completions rest

/-- Worker role selected by `ml_inference_launch_cores` via `id % 2`. -/
inductive Role where
  | enq : Role
  | deq : Role
deriving DecidableEq

/-- Body of the `RTE_LCORE_FOREACH_WORKER` loop in
`ml_inference_launch_cores`: `id` counts launched workers from 0, the loop
breaks at `id == 2`; even `id` launches `t->enqueue`, odd `id` launches
`t->dequeue`; each launched lcore first receives the assignment
`{nb_reqs := repetitions, start_fid, end_fid}`. -/
def launch_go (reps s e : Nat) : List Nat → Nat → List (Nat × MlCoreArgs × Role)
  | [], _ => []
  | w :: rest, id =>
    if id = 2 then []
    else
      (w, ⟨reps, s, e⟩, if id % 2 = 0 then Role.enq else Role.deq) ::
        launch_go reps s e rest (id + 1)

/-- `ml_inference_launch_cores`: iterates the available worker lcores (in
order) and launches assignments; the result lists, per launched lcore, the
assignment written into `t->args` and the role launched.  Untouched lcores
do not appear. -/
def ml_inference_launch_cores (workers : List Nat) (reps s e : Nat) :
    List (Nat × MlCoreArgs × Role) :=
  launch_go reps s e workers 0

/-- Options relevant to `test_inference_opt_check`: the repetition count,
per filelist entry the accessibility of its model and input files (the
results of the two `access` calls), and `rte_lcore_count()`. -/
structure MlOptions where
  repetitions : Nat
  filelist : List (Bool × Bool)
  lcore_count : Nat
deriving DecidableEq

/-- The file-availability loop of `test_inference_opt_check`: for each
entry, first the model file then the input file is tested with `access`;
the first inaccessible file aborts with `-ENOENT` (= -2). -/
def filelist_check : List (Bool × Bool) → Int
  | [] => 0
  | (m, inp) :: rest =>
    if m = false then -2
    else if inp = false then -2
    else filelist_check rest

/-- `test_inference_opt_check`: common option check (external
`ml_test_opt_check`, abstracted as its result `common_ret`), then file
availability, then `repetitions == 0` rejected with `-EINVAL` (= -22), then
`rte_lcore_count() < 3` rejected with `-EINVAL`. -/
def test_inference_opt_check (common_ret : Int) (o : MlOptions) : Int :=
  if common_ret ≠ 0 then common_ret
  else if filelist_check o.filelist ≠ 0 then filelist_check o.filelist
  else if o.repetitions = 0 then -22
  else if o.lcore_count < 3 then -22
  else 0

/-- Environment of one `ml_inference_iomem_setup` call: results of the
external collaborators (size queries, memzone reservation, file system,
mempool creation) plus the options it reads.  `file_size` is the true byte
length of the input file (the `ftell` result before the `uint32_t`
truncation); `open_errno`/`read_errno` are the `errno` values of a failed
`fopen`/`fread`.  `max_pool_size` stands for the `ML_TEST_MAX_POOL_SIZE`
constant (defined in `test_inference_common.h`, which is not part of the
sources; the claims only need it as an abstract ceiling). -/
structure IomemEnv where
  input_size_ret : Int
  inp_qsize : Nat
  inp_dsize : Nat
  output_size_ret : Int
  out_qsize : Nat
  out_dsize : Nat
  mz_ok : Bool
  file_open_ok : Bool
  open_errno : Nat
  file_size : Nat
  read_ok : Bool
  read_errno : Nat
  pool_create_ok : Bool
  repetitions : Nat
  max_pool_size : Nat
deriving DecidableEq

/-- Which named per-model resources exist after a setup/teardown call:
the `ml_user_data_<fid>` memzone, the `ml_io_pool_<fid>` mempool, and the
capacity the pool was created with (0 when absent). -/
structure IomemState where
  mz_present : Bool
  pool_present : Bool
  pool_capacity : Nat
deriving DecidableEq

/-- `ml_inference_iomem_setup` for one fid, starting from a fresh handle
(`t->model[fid].io_pool == NULL`, no memzone registered).  Mirrors the
control flow: size queries, memzone reserve, `fopen`, the
`fsize != inp_dsize` check with `fsize = (uint32_t)ftell(fp)`, `fread`,
then pool creation with `RTE_MIN(ML_TEST_MAX_POOL_SIZE, opt->repetitions)`
buffers.  Every `goto error` path frees the memzone when it was reserved
(the local `mz` is non-NULL from the reserve on), so no failure leaves a
resource registered.  The alignment arithmetic for `buff_size` is not
modelled: no claim mentions it. -/
def ml_inference_iomem_setup (env : IomemEnv) : Int × IomemState :=
  if env.input_size_ret ≠ 0 then (env.input_size_ret, ⟨false, false, 0⟩)
  else if env.output_size_ret ≠ 0 then (env.output_size_ret, ⟨false, false, 0⟩)
  else if env.mz_ok = false then (-12, ⟨false, false, 0⟩)
  else if env.file_open_ok = false then (-(env.open_errno : Int), ⟨false, false, 0⟩)
  else if env.file_size % U32 ≠ env.inp_dsize then (-22, ⟨false, false, 0⟩)
  else if env.read_ok = false then (-(env.read_errno : Int), ⟨false, false, 0⟩)
  else if env.pool_create_ok = false then (-12, ⟨false, false, 0⟩)
  else (0, ⟨true, true, min env.max_pool_size env.repetitions⟩)

/-- `ml_inference_iomem_destroy`: looks the memzone and the mempool up by
name and frees each only when found.  Returns the resulting state and the
pair (memzone freed?, pool freed?). -/
def ml_inference_iomem_destroy (s : IomemState) : IomemState × Bool × Bool :=
  (⟨false, false, s.pool_capacity⟩, s.mz_present, s.pool_present)

/-- `ml_inference_mem_setup`: creates the shared op pool via
`rte_ml_op_pool_create("ml_test_op_pool", ML_TEST_MAX_POOL_SIZE, ...)`.
Returns the result code and the capacity the pool was requested with
(0 when creation failed). -/
def ml_inference_mem_setup (max_pool_size : Nat) (pool_create_ok : Bool) :
    Int × Nat :=
  if pool_create_ok then (0, max_pool_size) else (-12, 0)

/-- One pooled request buffer: its dispatch counter `niters` and the owning
model's `fid` (written only at dispatch time). -/
structure MlRequest where
  niters : Nat
  fid : Nat
deriving DecidableEq

/-- `ml_request_init` (the `rte_mempool_create` object callback):
sets `req->niters = 0`.  `req->fid` is not initialized there (it is first
written by the enqueue worker); `junk` stands for its indeterminate value. -/
def ml_request_init (junk : Nat) : MlRequest :=
  ⟨0, junk⟩

/-- Verdict type (`ML_TEST_SUCCESS` / `ML_TEST_FAILED`). -/
inductive MlTestResult where
  | success : MlTestResult
  | failed : MlTestResult
deriving DecidableEq

/-- The parts of `struct test_inference` the result path reads and writes:
the global `nb_used` counter, the per-lcore `error_count` array and the
stored verdict `cmn.result`. -/
structure TestInference where
  nb_used : Nat
  error_count : List Nat
  result : MlTestResult
deriving DecidableEq

/-- `test_inference_setup`: the freshly `rte_zmalloc`ed handle gets
`nb_used = 0`, `cmn.result = ML_TEST_FAILED` and the whole `error_count`
array (RTE_MAX_LCORE entries, abstracted as `n`) zeroed. -/
def test_inference_setup (n : Nat) : TestInference :=
  ⟨0, List.replicate n 0, MlTestResult.failed⟩

/-- `ml_request_finish` folded over one pool object: buffers never
dispatched (`niters == 0`) are skipped, otherwise `t->nb_used++`
(`uint64_t`) and the output is dequantized. -/
def ml_request_finish (nb_used : Nat) (req : MlRequest) : Nat :=
  if req.niters = 0 then nb_used else (nb_used + 1) % U64

/-- `ml_inference_result` for one fid: sums the per-lcore error counters in
`uint64_t`, iterates the model's io pool with `ml_request_finish`, then
stores and returns `ML_TEST_SUCCESS` iff `nb_used > 0` and the summed error
count is 0.  `pool` is the object list of `t->model[fid].io_pool`. -/
def ml_inference_result (t : TestInference) (pool : List MlRequest) :
    TestInference × MlTestResult :=
  let error_count := t.error_count.foldl (fun acc x => (acc + x) % U64) 0
  let nb_used := pool.foldl ml_request_finish t.nb_used
  let res :=
    if 0 < nb_used ∧ error_count = 0 then MlTestResult.success
    else MlTestResult.failed
  ({ t with nb_used := nb_used, result := res }, res)

/-- Requests of a pool that were dispatched at least once. -/
def countUsed : List MlRequest → Nat
  | [] => 0
  | r :: rest => (if r.niters = 0 then 0 else 1) + countUsed rest

lemma ml_enqueue_inner_eq (a : MlCoreArgs) (h2 : a.end_fid + 1 < 65536) :
    ∀ fuel fid, fid ≤ a.end_fid → a.end_fid + 1 - fid ≤ fuel →
      ∃ l, ml_enqueue_inner a fuel fid = some l ∧
        l.length = a.end_fid + 1 - fid := by
  intro fuel
  induction fuel with
  | zero => intro fid h1 hf; omega
  | succ m ih =>
    intro fid h1 hf
    have hm : (fid + 1) % 65536 = fid + 1 := Nat.mod_eq_of_lt (by omega)
    by_cases hle : fid + 1 ≤ a.end_fid
    · obtain ⟨l, hl, hlen⟩ := ih (fid + 1) hle (by omega)
      refine ⟨fid :: l, ?_, ?_⟩
      · simp [ml_enqueue_inner, hm, hle, hl]
      · simp only [List.length_cons, hlen]; omega
    · have hfe : fid = a.end_fid := by omega
      refine ⟨[fid], ?_, ?_⟩
      · simp [ml_enqueue_inner, hm, hle]
      · simp only [List.length_singleton]; omega

lemma ml_enqueue_reps_eq (a : MlCoreArgs) (fuel : Nat)
    (h1 : a.start_fid ≤ a.end_fid) (h2 : a.end_fid + 1 < 65536)
    (hf : a.end_fid + 1 - a.start_fid ≤ fuel) :
    ∀ n, ∃ l, ml_enqueue_reps a fuel n = some l ∧
      l.length = n * (a.end_fid + 1 - a.start_fid) := by
  intro n
  induction n with
  | zero => exact ⟨[], rfl, by simp⟩
  | succ m ih =>
    obtain ⟨l1, hl1, hlen1⟩ := ml_enqueue_inner_eq a h2 fuel a.start_fid h1 hf
    obtain ⟨l2, hl2, hlen2⟩ := ih
    refine ⟨l1 ++ l2, ?_, ?_⟩
    · simp [ml_enqueue_reps, hl1, hl2]
    · rw [List.length_append, hlen1, hlen2]; ring

lemma ml_dequeue_loop_stop (expected : Nat) :
    ∀ stream total errs r, total < expected →
      ml_dequeue_loop expected stream total errs = some r → r.1 = expected := by
  intro stream
  induction stream with
  | nil => intro total errs r h hc; simp [ml_dequeue_loop] at hc
  | cons b rest ih =>
    intro total errs r h hc
    cases b with
    | none =>
      simp only [ml_dequeue_loop] at hc
      rw [if_pos h] at hc
      cases hrec : ml_dequeue_loop expected rest total errs with
      | none => rw [hrec] at hc; simp at hc
      | some r' =>
        rw [hrec] at hc
        simp only [Option.map_some', Option.some.injEq] at hc
        have := ih total errs r' h hrec
        rw [← hc]
        exact this
    | some o =>
      simp only [ml_dequeue_loop] at hc
      by_cases hlt : total + 1 < expected
      · rw [if_pos hlt] at hc
        cases hrec : ml_dequeue_loop expected rest (total + 1)
            (if o.status_err then errs + 1 else errs) with
        | none => rw [hrec] at hc; simp at hc
        | some r' =>
          rw [hrec] at hc
          simp only [Option.map_some', Option.some.injEq] at hc
          have := ih (total + 1) _ r' hlt hrec
          rw [← hc]
          exact this
      · rw [if_neg hlt] at hc
        simp only [Option.some.injEq] at hc
        rw [← hc]
        simp only []
        omega

lemma ml_dequeue_expected_eq (a : MlCoreArgs)
    (h1 : a.start_fid ≤ a.end_fid)
    (h4 : a.end_fid + 1 - a.start_fid ≤ 255)
    (h5 : a.nb_reqs * (a.end_fid + 1 - a.start_fid) < U64) :
    ml_dequeue_expected a = a.nb_reqs * (a.end_fid + 1 - a.start_fid) := by
  unfold ml_dequeue_expected
  have e1 : a.end_fid + 65537 - a.start_fid =
      (a.end_fid + 1 - a.start_fid) + 256 * 256 := by omega
  rw [e1, Nat.add_mul_mod_self_left, Nat.mod_eq_of_lt (show
    a.end_fid + 1 - a.start_fid < 256 by omega), Nat.mod_eq_of_lt h5]

/-- C1 (amended): for an assignment with `s ≤ e`, `r ≥ 1`, range size
`e - s + 1 ≤ 255` (so the `uint8_t nb_filelist` does not truncate),
`e + 1 < 65536` (so the `uint16_t fid++` does not wrap) and
`r * (e - s + 1) < 2^64` (so the `uint64_t` expected total does not wrap),
the enqueue worker submits exactly `r * (e - s + 1)` operations and the
dequeue worker, whenever it stops, has observed exactly `r * (e - s + 1)`
completions. -/
theorem c1_worker_operation_counts (a : MlCoreArgs) (fuel : Nat)
    (h1 : a.start_fid ≤ a.end_fid) (h2 : a.end_fid + 1 < 65536)
    (h3 : 1 ≤ a.nb_reqs) (h4 : a.end_fid - a.start_fid + 1 ≤ 255)
    (h5 : a.nb_reqs * (a.end_fid - a.start_fid + 1) < U64)
    (h6 : a.end_fid + 1 - a.start_fid ≤ fuel) :
    (∃ l, ml_enqueue_single a fuel = some l ∧
      l.length = a.nb_reqs * (a.end_fid - a.start_fid + 1)) ∧
    (∀ stream r, ml_dequeue_single a stream = some r →
      r.1 = a.nb_reqs * (a.end_fid - a.start_fid + 1)) := by
  have hD : a.end_fid - a.start_fid + 1 = a.end_fid + 1 - a.start_fid := by
    omega
  rw [hD] at h4 h5 ⊢
  constructor
  · obtain ⟨l, hl, hlen⟩ := ml_enqueue_reps_eq a fuel h1 h2 h6 a.nb_reqs
    refine ⟨l, ?_, hlen⟩
    unfold ml_enqueue_single
    rw [if_neg (by omega)]
    exact hl
  · intro stream r hr
    unfold ml_dequeue_single at hr
    rw [if_neg (by omega)] at hr
    have hexp := ml_dequeue_expected_eq a h1 h4 h5
    have hpos : 0 < ml_dequeue_expected a := by
      rw [hexp]
      have : 1 ≤ a.end_fid + 1 - a.start_fid := by omega
      exact Nat.mul_pos (by omega) (by omega)
    have := ml_dequeue_loop_stop (ml_dequeue_expected a) stream 0 0 r hpos hr
    rw [← hexp]
    exact this

/-- C1 witness: with `r = 2`, `[s, e] = [0, 1]` the enqueue worker submits
4 operations and the dequeue worker stops after observing 4 completions. -/
theorem c1_worker_operation_counts_witness :
    (ml_enqueue_single ⟨2, 0, 1⟩ 2).map List.length = some 4 ∧
    (ml_dequeue_single ⟨2, 0, 1⟩
        (List.replicate 4 (some ⟨0, false⟩))).map (fun r => r.1) = some 4 := by
  have h := c1_worker_operation_counts ⟨2, 0, 1⟩ 2 (by decide) (by decide)
    (by decide) (by decide) (by decide) (by decide)
  constructor
  · obtain ⟨l, hl, hlen⟩ := h.1
    rw [hl]
    simp only [Option.map_some', Option.some.injEq]
    rw [hlen]
    decide
  · cases heq : ml_dequeue_single ⟨2, 0, 1⟩
        (List.replicate 4 (some ⟨0, false⟩)) with
    | none => exact absurd heq (by decide)
    | some r =>
      have hr := h.2 (List.replicate 4 (some ⟨0, false⟩)) r heq
      simp only [Option.map_some', Option.some.injEq]
      rw [hr]
      decide

/-- C1 counterexample: for the assignment `r = 1`, `[s, e] = [0, 255]`
(`s ≤ e`, `r ≥ 1`) the dequeue worker stops after observing 1 completion,
not `r * (e - s + 1) = 256`: the `uint8_t` variable `nb_filelist` truncates
`255 - 0 + 1` to 0, so the expected total is 0 and the loop exits after its
first (unconditional) dequeue attempt. -/
theorem c1_dequeue_truncation_cex :
    (ml_dequeue_single ⟨1, 0, 255⟩ [some ⟨0, false⟩]).map (fun r => r.1) =
      some 1 ∧ (1 : Nat) ≠ 1 * (255 - 0 + 1) := by
  decide

lemma ml_dequeue_loop_releases (expected : Nat) :
    ∀ stream total errs r,
      ml_dequeue_loop expected stream total errs = some r →
      releasePairs r.2.2 = some ((completions r.2.2).map Prod.fst) ∧
      total + (completions r.2.2).length = r.1 := by
  intro stream
  induction stream with
  | nil => intro total errs r hc; simp [ml_dequeue_loop] at hc
  | cons b rest ih =>
    intro total errs r hc
    cases b with
    | none =>
      simp only [ml_dequeue_loop] at hc
      by_cases h : total < expected
      · rw [if_pos h] at hc
        cases hrec : ml_dequeue_loop expected rest total errs with
        | none => rw [hrec] at hc; simp at hc
        | some r' =>
          rw [hrec] at hc
          simp only [Option.map_some', Option.some.injEq] at hc
          obtain ⟨ha, hb⟩ := ih total errs r' hrec
          rw [← hc]
          refine ⟨?_, ?_⟩
          · simpa [releasePairs, completions] using ha
          · simpa [completions] using hb
      · rw [if_neg h] at hc
        simp only [Option.some.injEq] at hc
        rw [← hc]
        exact ⟨by simp [releasePairs, completions], by simp [completions]⟩
    | some o =>
      simp only [ml_dequeue_loop] at hc
      by_cases h : total + 1 < expected
      · rw [if_pos h] at hc
        cases hrec : ml_dequeue_loop expected rest (total + 1)
            (if o.status_err then errs + 1 else errs) with
        | none => rw [hrec] at hc; simp at hc
        | some r' =>
          rw [hrec] at hc
          simp only [Option.map_some', Option.some.injEq] at hc
          obtain ⟨ha, hb⟩ := ih (total + 1) _ r' hrec
          rw [← hc]
          refine ⟨?_, ?_⟩
          · cases herr : o.status_err <;>
              simp [herr, releasePairs, completions, ha]
          · cases herr : o.status_err <;>
              simp only [herr] <;> simp [completions] <;> omega
      · rw [if_neg h] at hc
        simp only [Option.some.injEq] at hc
        rw [← hc]
        refine ⟨?_, ?_⟩
        · cases herr : o.status_err <;> simp [herr, releasePairs, completions]
        · cases herr : o.status_err <;> simp [herr, completions]

/-- C6: whenever `ml_dequeue_single` returns, its trace releases, for every
observed completion and regardless of its status, the backing request
buffer to the pool of the fid recovered through `op->user_ptr` immediately
followed by the operation descriptor to the shared op pool — the two
releases always paired — and the number of observed completions equals the
reported dequeue total. -/
theorem c6_releases_paired (a : MlCoreArgs) (stream : List (Option MlOp))
    (r : Nat × Nat × List DeqEvent)
    (h : ml_dequeue_single a stream = some r) :
    releasePairs r.2.2 = some ((completions r.2.2).map Prod.fst) ∧
    (completions r.2.2).length = r.1 := by
  unfold ml_dequeue_single at h
  by_cases h0 : a.nb_reqs = 0
  · rw [if_pos h0] at h
    simp only [Option.some.injEq] at h
    rw [← h]
    exact ⟨by simp [releasePairs, completions], by simp [completions]⟩
  · rw [if_neg h0] at h
    obtain ⟨ha, hb⟩ :=
      ml_dequeue_loop_releases (ml_dequeue_expected a) stream 0 0 r h
    exact ⟨ha, by omega⟩

/-- C6 witness: one completion with ERROR status still has its request
buffer returned to model 3's pool immediately followed by the op-pool
release. -/
theorem c6_releases_paired_witness :
    releasePairs [DeqEvent.complete 3 true, DeqEvent.errorIncr,
        DeqEvent.putIoPool 3, DeqEvent.putOpPool] =
      some ((completions [DeqEvent.complete 3 true, DeqEvent.errorIncr,
        DeqEvent.putIoPool 3, DeqEvent.putOpPool]).map Prod.fst) ∧
    (completions [DeqEvent.complete 3 true, DeqEvent.errorIncr,
        DeqEvent.putIoPool 3, DeqEvent.putOpPool]).length = 1 :=
  c6_releases_paired ⟨1, 0, 0⟩ [some ⟨3, true⟩]
    (1, 1, [DeqEvent.complete 3 true, DeqEvent.errorIncr,
      DeqEvent.putIoPool 3, DeqEvent.putOpPool]) (by decide)

lemma launch_go_two (reps s e : Nat) :
    ∀ l, launch_go reps s e l 2 = [] := by
  intro l
  cases l <;> simp [launch_go]

/-- C7 (amended): when at least two worker lcores are available, the
launcher launches exactly two workers — the first available worker lcore
with the enqueue role, the second with the dequeue role, both with the full
range and repetition count — and leaves every remaining worker lcore idle
(no assignment written, no launch). -/
theorem c7_launch_two_workers (w0 w1 : Nat) (rest : List Nat)
    (reps s e : Nat) :
    ml_inference_launch_cores (w0 :: w1 :: rest) reps s e =
      [(w0, ⟨reps, s, e⟩, Role.enq), (w1, ⟨reps, s, e⟩, Role.deq)] := by
  unfold ml_inference_launch_cores
  simp [launch_go, launch_go_two]

/-- C7 counterexample: with a single available worker lcore the launcher
launches one worker, not two. -/
theorem c7_single_worker_cex :
    (ml_inference_launch_cores [7] 5 0 0).length = 1 ∧ (1 : Nat) ≠ 2 := by
  decide

/-- C8: `ml_inference_iomem_destroy` is idempotent: on a state where
neither the memzone nor the pool was ever created it frees nothing and
leaves the state unchanged, and a second call after any first call frees
nothing again. -/
theorem c8_iomem_destroy_idempotent (s : IomemState) :
    ml_inference_iomem_destroy ⟨false, false, s.pool_capacity⟩ =
      (⟨false, false, s.pool_capacity⟩, false, false) ∧
    (ml_inference_iomem_destroy (ml_inference_iomem_destroy s).1).2 =
      (false, false) ∧
    (ml_inference_iomem_destroy (ml_inference_iomem_destroy s).1).1 =
      (ml_inference_iomem_destroy s).1 :=
  ⟨rfl, rfl, rfl⟩

lemma filelist_check_all_ok :
    ∀ fl : List (Bool × Bool),
      (∀ p ∈ fl, p.1 = true ∧ p.2 = true) → filelist_check fl = 0 := by
  intro fl
  induction fl with
  | nil => intro _; rfl
  | cons p rest ih =>
    intro h
    obtain ⟨m, inp⟩ := p
    have h1 := (h (m, inp) (by simp)).1
    have h2 := (h (m, inp) (by simp)).2
    simp only at h1 h2
    simp only [filelist_check, h1, h2]
    rw [if_neg (by simp), if_neg (by simp)]
    exact ih fun q hq => h q (by simp [hq])

lemma launch_go_args (reps s e : Nat) :
    ∀ (l : List Nat) (id : Nat) (x : Nat × MlCoreArgs × Role),
      x ∈ launch_go reps s e l id → x.2.1 = ⟨reps, s, e⟩ := by
  intro l
  induction l with
  | nil => intro id x hx; simp [launch_go] at hx
  | cons w rest ih =>
    intro id x hx
    simp only [launch_go] at hx
    by_cases h2 : id = 2
    · rw [if_pos h2] at hx; simp at hx
    · rw [if_neg h2] at hx
      rcases List.mem_cons.mp hx with h | h
      · rw [h]
      · exact ih (id + 1) x h

/-- C9: option validation returns `-EINVAL` whenever the repetition count
is 0 and the listed files are accessible (and the common check passed);
conversely any options set that passes validation has `repetitions ≥ 1`,
so every assignment the launcher writes from validated options has a
nonzero repetition count and the workers' zero-repetition early-return
path is unreachable. -/
theorem c9_opt_check_repetitions (common_ret : Int) (o : MlOptions) :
    (common_ret = 0 → (∀ p ∈ o.filelist, p.1 = true ∧ p.2 = true) →
      o.repetitions = 0 → test_inference_opt_check common_ret o = -22) ∧
    (test_inference_opt_check common_ret o = 0 → 1 ≤ o.repetitions) ∧
    (test_inference_opt_check common_ret o = 0 →
      ∀ (workers : List Nat) (s e : Nat) (x : Nat × MlCoreArgs × Role),
        x ∈ ml_inference_launch_cores workers o.repetitions s e →
          x.2.1.nb_reqs ≠ 0) := by
  have hpass : test_inference_opt_check common_ret o = 0 →
      1 ≤ o.repetitions := by
    intro h0
    unfold test_inference_opt_check at h0
    split_ifs at h0 <;> omega
  refine ⟨?_, hpass, ?_⟩
  · intro hc hacc hrep
    unfold test_inference_opt_check
    rw [if_neg (by simp [hc]), filelist_check_all_ok o.filelist hacc]
    simp [hrep]
  · intro h0 workers s e x hx
    have harg := launch_go_args o.repetitions s e workers 0 x hx
    rw [harg]
    have := hpass h0
    show o.repetitions ≠ 0
    omega

/-- C9 witness: accessible files, `repetitions = 0`, common check passed:
validation rejects with `-EINVAL`. -/
theorem c9_opt_check_repetitions_witness :
    test_inference_opt_check 0 ⟨0, [(true, true)], 5⟩ = -22 :=
  (c9_opt_check_repetitions 0 ⟨0, [(true, true)], 5⟩).1 rfl (by decide) rfl

lemma foldl_add_mod_sum :
    ∀ (l : List Nat) (c : Nat),
      l.foldl (fun acc x => (acc + x) % U64) (c % U64) = (c + l.sum) % U64 := by
  intro l
  induction l with
  | nil => intro c; simp
  | cons x rest ih =>
    intro c
    simp only [List.foldl_cons, List.sum_cons]
    rw [Nat.mod_add_mod, ih (c + x), Nat.add_assoc]

lemma errors_foldl_sum (l : List Nat) :
    l.foldl (fun acc x => (acc + x) % U64) 0 = l.sum % U64 := by
  have h := foldl_add_mod_sum l 0
  rw [Nat.zero_mod] at h
  rw [h, Nat.zero_add]

lemma ml_inference_result_spec (t : TestInference) (pool : List MlRequest) :
    (ml_inference_result t pool).1.nb_used =
      pool.foldl ml_request_finish t.nb_used ∧
    (ml_inference_result t pool).1.error_count = t.error_count ∧
    ((ml_inference_result t pool).2 = MlTestResult.success ↔
      (0 < pool.foldl ml_request_finish t.nb_used ∧
        t.error_count.sum % U64 = 0)) ∧
    (ml_inference_result t pool).1.result = (ml_inference_result t pool).2 := by
  refine ⟨rfl, rfl, ?_, rfl⟩
  show (if 0 < pool.foldl ml_request_finish t.nb_used ∧
      t.error_count.foldl (fun acc x => (acc + x) % U64) 0 = 0
    then MlTestResult.success else MlTestResult.failed) = MlTestResult.success
    ↔ _
  rw [errors_foldl_sum t.error_count]
  by_cases hc : 0 < pool.foldl ml_request_finish t.nb_used ∧
      t.error_count.sum % U64 = 0
  · rw [if_pos hc]
    exact ⟨fun _ => hc, fun _ => rfl⟩
  · rw [if_neg hc]
    exact ⟨fun h => absurd h (by decide), fun h => absurd h hc⟩

/-- C2 (amended): `ml_inference_result` returns SUCCESS iff the global
used counter (its value after the dequantize pass over the pool) is
strictly positive and the 64-bit sum of the per-thread error counters —
the sum taken modulo 2^64, as the `uint64_t` accumulation computes it —
is zero; otherwise it returns FAILED, and it always stores the returned
verdict in `t->cmn.result`. -/
theorem c2_result_verdict (t : TestInference) (pool : List MlRequest) :
    ((ml_inference_result t pool).2 = MlTestResult.success ↔
      (0 < (ml_inference_result t pool).1.nb_used ∧
        t.error_count.sum % U64 = 0)) ∧
    (ml_inference_result t pool).1.result = (ml_inference_result t pool).2 := by
  obtain ⟨h1, _, h3, h4⟩ := ml_inference_result_spec t pool
  rw [h1]
  exact ⟨h3, h4⟩

/-- C2 counterexample: with per-thread error counters `2^63` and `2^63`
(representable `uint64_t` values) and one used buffer, the mathematical sum
of the error counters is nonzero, yet the `uint64_t` accumulation wraps to
0 and the code returns SUCCESS where the claim requires FAILED. -/
theorem c2_error_sum_wrap_cex :
    (ml_inference_result
        ⟨0, [9223372036854775808, 9223372036854775808], MlTestResult.failed⟩
        [⟨1, 0⟩]).2 = MlTestResult.success ∧
    ([9223372036854775808, 9223372036854775808] : List Nat).sum ≠ 0 := by
  decide

lemma foldl_finish_countUsed :
    ∀ (pool : List MlRequest) (c : Nat), c + countUsed pool < U64 →
      pool.foldl ml_request_finish c = c + countUsed pool := by
  intro pool
  induction pool with
  | nil => intro c h; simp [countUsed]
  | cons r rest ih =>
    intro c h
    simp only [List.foldl_cons, ml_request_finish]
    by_cases hr : r.niters = 0
    · rw [if_pos hr]
      simp only [countUsed, if_pos hr, Nat.zero_add] at h ⊢
      exact ih c h
    · rw [if_neg hr]
      simp only [countUsed, if_neg hr] at h ⊢
      rw [Nat.mod_eq_of_lt (by omega), ih (c + 1) (by omega)]
      omega

lemma countUsed_le_length :
    ∀ pool : List MlRequest, countUsed pool ≤ pool.length := by
  intro pool
  induction pool with
  | nil => simp [countUsed]
  | cons r rest ih =>
    simp only [countUsed, List.length_cons]
    by_cases hr : r.niters = 0
    · rw [if_pos hr]; omega
    · rw [if_neg hr]; omega

lemma countUsed_pos (r : MlRequest) (hn : r.niters ≠ 0) :
    ∀ pool : List MlRequest, r ∈ pool → 0 < countUsed pool := by
  intro pool
  induction pool with
  | nil => intro hm; simp at hm
  | cons q rest ih =>
    intro hm
    rcases List.mem_cons.mp hm with h | h
    · rw [← h]
      simp only [countUsed, if_neg hn]
      omega
    · have := ih h
      simp only [countUsed]
      omega

lemma foldl_finish_zero :
    ∀ pool : List MlRequest, (∀ r ∈ pool, r.niters = 0) →
      ∀ c, pool.foldl ml_request_finish c = c := by
  intro pool
  induction pool with
  | nil => intro _ c; rfl
  | cons q rest ih =>
    intro h c
    simp only [List.foldl_cons, ml_request_finish, if_pos (h q (by simp))]
    exact ih (fun r hr => h r (by simp [hr])) c

lemma replicate_zero_sum (n : Nat) : (List.replicate n (0 : Nat)).sum = 0 := by
  induction n with
  | zero => rfl
  | succ m ih => simp [List.replicate_succ, ih]

/-- C4: with a zero repetition count both workers return immediately — the
enqueue worker submits nothing (touching no pool and never calling the
enqueue burst) and the dequeue worker consumes nothing from the device
queue and performs no release (empty trace) — and a subsequent
`ml_inference_result` on any freshly initialized pool (every buffer's
`niters` is 0 from `ml_request_init`) reports FAILED, since the used
counter stays 0. -/
theorem c4_zero_repetitions (s e fuel n k j : Nat)
    (stream : List (Option MlOp)) :
    ml_enqueue_single ⟨0, s, e⟩ fuel = some [] ∧
    ml_dequeue_single ⟨0, s, e⟩ stream = some (0, 0, []) ∧
    (ml_inference_result (test_inference_setup n)
        (List.replicate k (ml_request_init j))).2 = MlTestResult.failed := by
  refine ⟨rfl, rfl, ?_⟩
  obtain ⟨_, _, h3, _⟩ := ml_inference_result_spec (test_inference_setup n)
    (List.replicate k (ml_request_init j))
  have hz : (List.replicate k (ml_request_init j)).foldl
      ml_request_finish (test_inference_setup n).nb_used = 0 :=
    foldl_finish_zero (List.replicate k (ml_request_init j))
      (fun r hr => by rw [List.eq_of_mem_replicate hr]; rfl)
      (test_inference_setup n).nb_used
  cases hres : (ml_inference_result (test_inference_setup n)
      (List.replicate k (ml_request_init j))).2 with
  | success =>
    obtain ⟨hpos, _⟩ := h3.mp hres
    rw [hz] at hpos
    omega
  | failed => rfl

/-- C10: `nb_used` is zeroed only at setup and only ever incremented by
`ml_request_finish`; it is never reset between `ml_inference_result`
calls, so after a first call that counted usage from one model's pool, a
second call for a different model whose pool was never used still returns
SUCCESS when the per-thread error counters are all zero. -/
theorem c10_nb_used_persists (n : Nat) (pool1 pool2 : List MlRequest)
    (r1 : MlRequest) (h1 : r1 ∈ pool1) (h1n : r1.niters ≠ 0)
    (hlen : pool1.length < U64)
    (h2 : ∀ r ∈ pool2, r.niters = 0) :
    (test_inference_setup n).nb_used = 0 ∧
    0 < (ml_inference_result (test_inference_setup n) pool1).1.nb_used ∧
    (ml_inference_result
        (ml_inference_result (test_inference_setup n) pool1).1 pool2).1.nb_used =
      (ml_inference_result (test_inference_setup n) pool1).1.nb_used ∧
    (ml_inference_result
        (ml_inference_result (test_inference_setup n) pool1).1 pool2).2 =
      MlTestResult.success := by
  obtain ⟨e1, e2, _, _⟩ := ml_inference_result_spec (test_inference_setup n) pool1
  obtain ⟨f1, _, f3, _⟩ :=
    ml_inference_result_spec (ml_inference_result (test_inference_setup n) pool1).1 pool2
  have hcount : pool1.foldl ml_request_finish (test_inference_setup n).nb_used =
      countUsed pool1 := by
    have hb : (0 : Nat) + countUsed pool1 < U64 := by
      have := countUsed_le_length pool1
      omega
    have := foldl_finish_countUsed pool1 0 hb
    rw [show (test_inference_setup n).nb_used = 0 from rfl, this]
    omega
  have hpos : 0 < (ml_inference_result (test_inference_setup n) pool1).1.nb_used := by
    rw [e1, hcount]
    exact countUsed_pos r1 h1n pool1 h1
  have hkeep : pool2.foldl ml_request_finish
      (ml_inference_result (test_inference_setup n) pool1).1.nb_used =
      (ml_inference_result (test_inference_setup n) pool1).1.nb_used :=
    foldl_finish_zero pool2 h2 _
  refine ⟨rfl, hpos, ?_, ?_⟩
  · rw [f1, hkeep]
  · refine f3.mpr ⟨?_, ?_⟩
    · rw [hkeep]
      exact hpos
    · rw [e2, show (test_inference_setup n).error_count =
        List.replicate n 0 from rfl, replicate_zero_sum n, Nat.zero_mod]

/-- C10 witness: one used buffer in model A's pool, an untouched pool for
model B, zero error counters: the second `ml_inference_result` still
returns SUCCESS. -/
theorem c10_nb_used_persists_witness :
    (test_inference_setup 2).nb_used = 0 ∧
    0 < (ml_inference_result (test_inference_setup 2) [⟨1, 0⟩]).1.nb_used ∧
    (ml_inference_result
        (ml_inference_result (test_inference_setup 2) [⟨1, 0⟩]).1 [⟨0, 5⟩]).1.nb_used =
      (ml_inference_result (test_inference_setup 2) [⟨1, 0⟩]).1.nb_used ∧
    (ml_inference_result
        (ml_inference_result (test_inference_setup 2) [⟨1, 0⟩]).1 [⟨0, 5⟩]).2 =
      MlTestResult.success :=
  c10_nb_used_persists 2 [⟨1, 0⟩] [⟨0, 5⟩] ⟨1, 0⟩ (by decide) (by decide)
    (by decide) (by decide)

/-- C3 (amended): every per-model buffer pool the core creates has
capacity `min ML_TEST_MAX_POOL_SIZE repetitions`, but the shared operation
pool is created with capacity `ML_TEST_MAX_POOL_SIZE`, independent of the
repetition count. -/
theorem c3_pool_capacities (env : IomemEnv) (m : Nat)
    (h : (ml_inference_iomem_setup env).2.pool_present = true) :
    (ml_inference_iomem_setup env).2.pool_capacity =
      min env.max_pool_size env.repetitions ∧
    (ml_inference_mem_setup m true).2 = m := by
  refine ⟨?_, rfl⟩
  unfold ml_inference_iomem_setup at h ⊢
  split_ifs at h ⊢
  simp_all

/-- C3 witness: a successful per-model setup with ceiling 7 and
3 repetitions creates the buffer pool with capacity `min 7 3`, and the op
pool is created with the full ceiling. -/
theorem c3_pool_capacities_witness :
    (ml_inference_iomem_setup
        ⟨0, 1, 5, 0, 1, 1, true, true, 1, 5, true, 1, true, 3, 7⟩).2.pool_capacity =
      min 7 3 ∧
    (ml_inference_mem_setup 7 true).2 = 7 :=
  c3_pool_capacities ⟨0, 1, 5, 0, 1, 1, true, true, 1, 5, true, 1, true, 3, 7⟩ 7
    (by decide)

/-- C3 counterexample: with ceiling 2 and repetition count 1, the shared
operation pool is created with capacity 2, not
`min ML_TEST_MAX_POOL_SIZE repetitions = 1`: `ml_inference_mem_setup`
passes `ML_TEST_MAX_POOL_SIZE` alone to `rte_ml_op_pool_create` and never
reads `opt->repetitions`. -/
theorem c3_op_pool_capacity_cex :
    ml_inference_mem_setup 2 true = (0, 2) ∧ (2 : Nat) ≠ min 2 1 := by
  decide

/-- C5 (amended): if the input file's length is below 2^32 (so the
`uint32_t` truncation of the `ftell` result is the identity) and differs
from the model's declared raw input size, `ml_inference_iomem_setup` fails
with `-EINVAL`, no pool is created and the reserved memzone is released
before the error propagates; the subsequent `ml_inference_iomem_destroy`
succeeds cleanly as a no-op. -/
theorem c5_input_size_mismatch (env : IomemEnv)
    (h1 : env.input_size_ret = 0) (h2 : env.output_size_ret = 0)
    (h3 : env.mz_ok = true) (h4 : env.file_open_ok = true)
    (h5 : env.file_size < U32) (h6 : env.file_size ≠ env.inp_dsize) :
    ml_inference_iomem_setup env = (-22, ⟨false, false, 0⟩) ∧
    ml_inference_iomem_destroy ⟨false, false, 0⟩ =
      (⟨false, false, 0⟩, false, false) := by
  refine ⟨?_, rfl⟩
  unfold ml_inference_iomem_setup
  rw [if_neg (by simp [h1]), if_neg (by simp [h2]), if_neg (by simp [h3]),
    if_neg (by simp [h4]), if_pos (by rw [Nat.mod_eq_of_lt h5]; exact h6)]

/-- C5 witness: a 7-byte input file against a declared raw input size of
5 bytes makes setup fail with `-EINVAL` leaving nothing created, and
teardown is a clean no-op. -/
theorem c5_input_size_mismatch_witness :
    ml_inference_iomem_setup
        ⟨0, 1, 5, 0, 1, 1, true, true, 1, 7, true, 1, true, 3, 7⟩ =
      (-22, ⟨false, false, 0⟩) ∧
    ml_inference_iomem_destroy ⟨false, false, 0⟩ =
      (⟨false, false, 0⟩, false, false) :=
  c5_input_size_mismatch ⟨0, 1, 5, 0, 1, 1, true, true, 1, 7, true, 1, true, 3, 7⟩
    rfl rfl rfl rfl (by decide) (by decide)

/-- C5 counterexample: an input file of length 2^32 + 5 against a declared
raw input size of 5 does not fail: `fsize` is a `uint32_t`, so
`(uint32_t)ftell(fp)` truncates the length to 5, the mismatch check
passes, and setup succeeds although the file length differs from the
declared size. -/
theorem c5_file_length_truncation_cex :
    (ml_inference_iomem_setup
        ⟨0, 1, 5, 0, 1, 1, true, true, 1, 4294967301, true, 1, true, 1, 1⟩).1 =
      0 ∧ (4294967301 : Nat) ≠ 5 := by
  decide
